import Mathlib

/-!
Verification development for the verifysfv repository: a Go tool that reads
SFV (Simple File Verification) manifests and checks CRC32 checksums of the
listed files.

The Go source is shallowly embedded here:
* strings are Lean `String`s; the Go functions used by the code
  (strings.TrimSpace restricted to ASCII whitespace, strings.SplitN with
  separator " " and n = 2, strconv.ParseUint with base 16 and bitSize 32,
  path.Join / path.Clean / path.Dir) are modelled as executable functions;
* the file system is an explicit parameter (a function from paths to file
  states), since the Go code does I/O;
* line scanning by bufio.Scanner is modelled by handing the parser the list
  of lines of the manifest;
* machine integers (uint32, bytes) are `Nat`s reduced mod 2^32 / 2^8 where
  the Go code relies on wrap-around;
* the concurrent worker pipeline of cmd/verify is modelled as a small-step
  transition relation over a pipeline state (work queue, in-flight records,
  result list), with the nondeterminism of scheduling as nondeterminism of
  the step relation.
-/

namespace VerifySfv

/-- ASCII whitespace, as relevant to strings.TrimSpace on the ASCII inputs
this code handles (space, tab, newline, vertical tab, form feed, carriage
return). -/
def goIsSpace (c : Char) : Bool :=
  c = ' ' ∨ c = '\t' ∨ c = '\n' ∨ c = '\x0b' ∨ c = '\x0c' ∨ c = '\r'

/-- Trim ASCII whitespace from both ends of a character list. -/
def trimChars (l : List Char) : List Char :=
  ((l.dropWhile goIsSpace).reverse.dropWhile goIsSpace).reverse

/-- strings.TrimSpace (ASCII fragment). -/
def trimSpace (s : String) : String :=
  String.mk (trimChars s.data)

/-- strings.SplitN(line, " ", 2): `none` when the line has no space (SplitN
returns a single field), otherwise the text before the first space and
everything after it. -/
def splitFirstSpace : List Char → Option (List Char × List Char)
  | [] => none
  | c :: rest =>
    if c = ' ' then some ([], rest)
    else
      match splitFirstSpace rest with
      | none => none
      | some (a, b) => some (c :: a, b)

/-- Value of one hexadecimal digit, as accepted by strconv.ParseUint with
base 16 (digits and letters of either case, value below 16). -/
def hexDigitVal (c : Char) : Option Nat :=
  if '0' ≤ c ∧ c ≤ '9' then some (c.toNat - '0'.toNat)
  else if 'a' ≤ c ∧ c ≤ 'f' then some (c.toNat - 'a'.toNat + 10)
  else if 'A' ≤ c ∧ c ≤ 'F' then some (c.toNat - 'A'.toNat + 10)
  else none

/-- Accumulate hexadecimal digits left to right. -/
def hexAcc : List Char → Nat → Option Nat
  | [], acc => some acc
  | c :: rest, acc =>
    match hexDigitVal c with
    | none => none
    | some d => hexAcc rest (acc * 16 + d)

/-- strconv.ParseUint(s, 16, 32): fails on the empty string, on any
non-hex-digit character, and on values that do not fit in 32 bits. -/
def parseHexUint32 (s : String) : Option Nat :=
  match s.data with
  | [] => none
  | l =>
    match hexAcc l 0 with
    | none => none
    | some v => if v < 2 ^ 32 then some v else none

/-- Split a character list on '/' (components of a slash path). -/
def splitOnSlash : List Char → List (List Char)
  | [] => [[]]
  | c :: rest =>
    if c = '/' then [] :: splitOnSlash rest
    else
      match splitOnSlash rest with
      | [] => [[c]]
      | a :: as => (c :: a) :: as

/-- Join path components with '/'. -/
def joinSlash : List (List Char) → List Char
  | [] => []
  | [x] => x
  | x :: rest => x ++ '/' :: joinSlash rest

/-- One step of path.Clean's component processing: empty and "." components
vanish; ".." pops a previous component when possible, is dropped at the root
of a rooted path, and is kept on a relative path that cannot pop. -/
def cleanPush (rooted : Bool) (stack : List (List Char)) (comp : List Char) :
    List (List Char) :=
  if comp = [] ∨ comp = ['.'] then stack
  else if comp = ['.', '.'] then
    match stack with
    | top :: rest => if top = ['.', '.'] then comp :: stack else rest
    | [] => if rooted then [] else [comp]
  else comp :: stack

/-- path.Clean on character lists: resolve ".", "..", duplicate slashes; ""
cleans to ".". -/
def pathCleanChars (l : List Char) : List Char :=
  match l with
  | [] => ['.']
  | c :: _ =>
    let rooted := c = '/'
    let stack := ((splitOnSlash l).foldl (cleanPush rooted) []).reverse
    let body := joinSlash stack
    if rooted then '/' :: body
    else if body = [] then ['.'] else body

/-- path.Clean. -/
def pathClean (s : String) : String :=
  String.mk (pathCleanChars s.data)

/-- path.Join(dir, name): concatenate non-empty elements with '/' and Clean
the result; all-empty input yields "". -/
def pathJoin (dir name : String) : String :=
  if dir = "" ∧ name = "" then ""
  else if dir = "" then pathClean name
  else pathClean (String.mk (dir.data ++ '/' :: name.data))

/-- Characters of a path up to and including its last '/', empty when the
path has no slash (the `dir` half of path.Split). -/
def upToLastSlash (l : List Char) : List Char :=
  (l.reverse.dropWhile (fun c => c != '/')).reverse

/-- path.Dir: Clean of everything up to the final slash. -/
def pathDir (s : String) : String :=
  pathClean (String.mk (upToLastSlash s.data))

/-- A line of a SFV file: filename, resolved path, expected CRC32. -/
structure Checksum where
  Filename : String
  Path : String
  CRC32 : Nat
deriving DecidableEq

/-- The checksums read from a SFV file together with its path. -/
structure SFV where
  Checksums : List Checksum
  Path : String
deriving DecidableEq

/-- Errors surfaced by the library and the command-line tool. -/
inductive Err where
  /-- os.Open failed (missing file, permissions, ...). -/
  | openError : Err
  /-- a read returned an error other than io.EOF. -/
  | ioError : Err
  /-- parseChecksum: the line did not split into two fields. -/
  | malformedLine (line : String) : Err
  /-- parseChecksum: strconv.ParseUint rejected the checksum token. -/
  | invalidChecksum (token : String) : Err
  /-- SFV.Verify: no checksums found in the manifest. -/
  | noChecksums (path : String) : Err
  /-- cmd/verify worker: computed checksum differs from the expected one. -/
  | corruption (expected computed : Nat) (filename : String) : Err
deriving DecidableEq

/-- parseChecksum(dir, line): split at the first space; the first field
(trimmed) is the filename, the rest (trimmed) must parse as 32-bit hex;
the path is path.Join(dir, filename). -/
def parseChecksum (dir line : String) : Except Err Checksum :=
  match splitFirstSpace line.data with
  | none => Except.error (Err.malformedLine line)
  | some (p0, p1) =>
    let filename := trimSpace (String.mk p0)
    let path := pathJoin dir filename
    match parseHexUint32 (trimSpace (String.mk p1)) with
    | none => Except.error (Err.invalidChecksum (trimSpace (String.mk p1)))
    | some v => Except.ok { Filename := filename, Path := path, CRC32 := v }

/-- A line that parseChecksums actually hands to parseChecksum: its trimmed
form is non-empty and does not start with ';'. -/
def effectiveLine (l : String) : Bool :=
  match (trimSpace l).data with
  | [] => false
  | c :: _ => c ≠ ';'

/-- parseChecksums(dir, r): scan lines in order, trim each, skip blank and
comment lines, parse the rest; the first failing line aborts the whole
parse with its error. -/
def parseChecksums (dir : String) : List String → Except Err (List Checksum)
  | [] => Except.ok []
  | l :: rest =>
    if effectiveLine l then
      match parseChecksum dir (trimSpace l) with
      | Except.error e => Except.error e
      | Except.ok c =>
        match parseChecksums dir rest with
        | Except.error e => Except.error e
        | Except.ok cs => Except.ok (c :: cs)
    else parseChecksums dir rest

/-- Read(filepath): open the file (the file system gives its lines, or
`none` when opening fails), parse the checksums against the manifest's
directory, and build the SFV. No emptiness check is performed. -/
def Read (fs : String → Option (List String)) (filepath : String) :
    Except Err SFV :=
  match fs filepath with
  | none => Except.error Err.openError
  | some lines =>
    match parseChecksums (pathDir filepath) lines with
    | Except.error e => Except.error e
    | Except.ok cs => Except.ok { Checksums := cs, Path := filepath }

/-- Bitwise complement on 32 bits (Go's ^x on uint32). -/
def comp32 (x : Nat) : Nat :=
  x ^^^ 0xFFFFFFFF

/-- One iteration of hash/crc32's table construction: shift right, xor the
polynomial in when the low bit was set. -/
def crc32tableStep (poly crc : Nat) : Nat :=
  if crc % 2 = 1 then (crc / 2) ^^^ poly else crc / 2

/-- crc32.MakeTable(poly)[i]: eight table-construction iterations on i. -/
def crc32tableEntry (poly i : Nat) : Nat :=
  crc32tableStep poly (crc32tableStep poly (crc32tableStep poly
    (crc32tableStep poly (crc32tableStep poly (crc32tableStep poly
      (crc32tableStep poly (crc32tableStep poly i)))))))

/-- One byte of hash/crc32's update: crc = tab[byte(crc)^b] ^ (crc >> 8). -/
def crc32step (poly crc b : Nat) : Nat :=
  crc32tableEntry poly ((crc % 256) ^^^ (b % 256)) ^^^ (crc / 256)

/-- crc32.Update(crc, tab, p): complement, fold the bytes, complement. -/
def crc32update (poly crc : Nat) (p : List Nat) : Nat :=
  comp32 (p.foldl (crc32step poly) (comp32 crc))

/-- CRC32 of a whole byte sequence (digest state starts at 0). -/
def crc32Go (poly : Nat) (bytes : List Nat) : Nat :=
  crc32update poly 0 bytes

/-- The read loop of Checksum.Verify: read up to bufSize bytes, stop when a
read returns no bytes (end of stream, or a zero-length buffer), feed each
chunk to the CRC32 digest. The fuel argument (instantiated with the byte
count) only bounds the recursion; with a positive bufSize each iteration
consumes at least one byte, so the fuel never runs out. -/
def readLoop (poly bufSize : Nat) : Nat → Nat → List Nat → Nat
  | _, crc, [] => crc
  | 0, crc, _ => crc
  | fuel + 1, crc, bytes =>
    if bufSize = 0 then crc
    else readLoop poly bufSize fuel (crc32update poly crc (bytes.take bufSize))
      (bytes.drop bufSize)

/-- What the file system says about one path, as Checksum.Verify observes
it: opening can fail, a read can fail with an error other than io.EOF after
a prefix of the content, or the whole content streams cleanly. -/
inductive FileState where
  | absent : FileState
  | readFailure (readBytes : List Nat) : FileState
  | content (bytes : List Nat) : FileState

/-- Checksum.Verify(polynomial): open the file (failure returns
(false, 0, err)), stream its bytes through the CRC32 digest in bufSize
chunks (a read error other than io.EOF returns (false, 0, err)), and
compare the final sum with the expected checksum. -/
def Checksum.Verify (fs : String → FileState) (poly bufSize : Nat)
    (c : Checksum) : Bool × Nat × Option Err :=
  match fs c.Path with
  | FileState.absent => (false, 0, some Err.openError)
  | FileState.readFailure _ => (false, 0, some Err.ioError)
  | FileState.content bytes =>
    let result := readLoop poly bufSize bytes.length 0 bytes
    (result == c.CRC32, result, none)

/-- Checksum.IsExist: os.Stat(path) returned no error. The distinct stat
failures are modelled so that the definition can show it ignores which one
occurred. -/
inductive StatResult where
  | ok : StatResult
  | errNotExist : StatResult
  | errPermission : StatResult
  | errOther : StatResult
deriving DecidableEq

/-- Checksum.IsExist: true exactly when stat-ing the path succeeds. -/
def Checksum.IsExist (stat : String → StatResult) (c : Checksum) : Bool :=
  stat c.Path == StatResult.ok

/-- The loop of SFV.Verify: check each record in order; a verification
error returns (false, err), a mismatch returns (false, nil), otherwise
continue; an exhausted list returns (true, nil). -/
def verifyAll (fs : String → FileState) (poly bufSize : Nat) :
    List Checksum → Bool × Option Err
  | [] => (true, none)
  | c :: rest =>
    let r := Checksum.Verify fs poly bufSize c
    match r.2.2 with
    | some e => (false, some e)
    | none => if r.1 then verifyAll fs poly bufSize rest else (false, none)

/-- SFV.Verify: an empty checksum list is an error ("no checksums found in
path"); otherwise check all records sequentially, short-circuiting. -/
def SFV.Verify (fs : String → FileState) (poly bufSize : Nat) (s : SFV) :
    Bool × Option Err :=
  if s.Checksums.isEmpty then (false, some (Err.noChecksums s.Path))
  else verifyAll fs poly bufSize s.Checksums

/-- The loop of SFV.IsExist: false at the first record whose file does not
stat, true when all do. -/
def allExist (stat : String → StatResult) : List Checksum → Bool
  | [] => true
  | c :: rest =>
    if Checksum.IsExist stat c then allExist stat rest else false

/-- SFV.IsExist: every record's file exists (vacuously true on an empty
list). -/
def SFV.IsExist (stat : String → StatResult) (s : SFV) : Bool :=
  allExist stat s.Checksums

/-- What a cmd/verify worker sends on the error channel for one record:
the corruption error when verification computed a different sum without an
I/O error, otherwise the verification's own (possibly nil) error. -/
def workerSend (fs : String → FileState) (poly bufSize : Nat)
    (c : Checksum) : Option Err :=
  let r := Checksum.Verify fs poly bufSize c
  if r.1 = false ∧ r.2.2 = none then
    some (Err.corruption c.CRC32 r.2.1 c.Filename)
  else r.2.2

/-- The exit-code loop of cmd/verify's main: exitCode starts at 0 and every
non-nil error drained from the channel sets it to 1. -/
def exitLoop (errList : List (Option Err)) : Nat :=
  errList.foldl (fun code e => if e.isSome then 1 else code) 0

/-- The process exit status of cmd/verify: a failure to Read the manifest
is fatal (log.Fatal exits with status 1); otherwise the exit code
aggregated from the per-record errors drained from the channel. -/
def mainExit (readResult : Except Err SFV) (errList : List (Option Err)) :
    Nat :=
  match readResult with
  | Except.error _ => 1
  | Except.ok _ => exitLoop errList

/-- State of the worker pipeline of cmd/verify: the records still in the
work channel (in order), the records currently held by a worker (tagged
with the worker's index), and the outcomes produced so far, newest
first. -/
structure PipeState where
  queue : List Checksum
  inFlight : List (Nat × Checksum)
  results : List (Checksum × (Bool × Nat × Option Err))

/-- One scheduling step of the pipeline with W workers: a free worker
receives the next record from the work channel, or a busy worker finishes
its record, appending the outcome of Checksum.Verify to the results. -/
inductive PipeStep (fs : String → FileState) (poly bufSize W : Nat) :
    PipeState → PipeState → Prop
  | dequeue (w : Nat) (c : Checksum) (q : List Checksum)
      (inF : List (Nat × Checksum))
      (res : List (Checksum × (Bool × Nat × Option Err)))
      (hw : w < W) (hfree : ∀ p ∈ inF, Prod.fst p ≠ w) :
      PipeStep fs poly bufSize W ⟨c :: q, inF, res⟩ ⟨q, (w, c) :: inF, res⟩
  | finish (w : Nat) (c : Checksum) (l r : List (Nat × Checksum))
      (q : List Checksum)
      (res : List (Checksum × (Bool × Nat × Option Err))) :
      PipeStep fs poly bufSize W ⟨q, l ++ (w, c) :: r, res⟩
        ⟨q, l ++ r, (c, Checksum.Verify fs poly bufSize c) :: res⟩

/-- The pipeline's executions: reflexive-transitive closure of its steps. -/
def PipeReach (fs : String → FileState) (poly bufSize W : Nat) :
    PipeState → PipeState → Prop :=
  Relation.ReflTransGen (PipeStep fs poly bufSize W)

/-- The pipeline's start state on a manifest's record list. -/
def pipeInit (records : List Checksum) : PipeState :=
  ⟨records, [], []⟩

/-- A finished pipeline: the work channel is drained and closed and every
worker has terminated. -/
def pipeDone (s : PipeState) : Prop :=
  s.queue = [] ∧ s.inFlight = []

/-! ### Derived forms used to state the claims -/

/-- The record parseChecksums builds for one effective line (junk default
off the success path; the theorems only use it where parsing succeeds). -/
def parsedRecord (dir l : String) : Checksum :=
  match parseChecksum dir (trimSpace l) with
  | Except.ok c => c
  | Except.error _ => ⟨"", "", 0⟩

/-- The checksum token of a line: what follows the first space of the
trimmed line, trimmed again, as parseChecksum extracts it. -/
def lineChecksumToken (l : String) : Option String :=
  match splitFirstSpace (trimSpace l).data with
  | none => none
  | some p => some (trimSpace (String.mk p.2))

/-- A well-formed record line: it has a first space and the token after it
parses as 32-bit hexadecimal. -/
def wellFormedLine (l : String) : Bool :=
  match lineChecksumToken l with
  | none => false
  | some tok => (parseHexUint32 tok).isSome

theorem parseChecksum_eq_of_split (dir l : String) (p0 p1 : List Char)
    (hsplit : splitFirstSpace (trimSpace l).data = some (p0, p1)) (v : Nat)
    (hhex : parseHexUint32 (trimSpace (String.mk p1)) = some v) :
    parseChecksum dir (trimSpace l) =
      Except.ok ⟨trimSpace (String.mk p0),
        pathJoin dir (trimSpace (String.mk p0)), v⟩ := by
  unfold parseChecksum
  rw [hsplit]
  simp [hhex]

theorem parseChecksum_of_wellFormed (dir l : String)
    (hwf : wellFormedLine l = true) :
    ∃ tok v, lineChecksumToken l = some tok ∧ parseHexUint32 tok = some v ∧
      parseChecksum dir (trimSpace l) = Except.ok (parsedRecord dir l) ∧
      (parsedRecord dir l).CRC32 = v := by
  unfold wellFormedLine at hwf
  cases htok : lineChecksumToken l with
  | none => rw [htok] at hwf; exact absurd hwf (by simp)
  | some tok =>
    rw [htok] at hwf
    have hwf' : (parseHexUint32 tok).isSome = true := hwf
    cases hhex : parseHexUint32 tok with
    | none => rw [hhex] at hwf'; exact absurd hwf' (by simp)
    | some v =>
      unfold lineChecksumToken at htok
      cases hsplit : splitFirstSpace (trimSpace l).data with
      | none => rw [hsplit] at htok; exact absurd htok (by simp)
      | some p =>
        rw [hsplit] at htok
        obtain ⟨p0, p1⟩ := p
        simp only [Option.some.injEq] at htok
        subst htok
        have heq := parseChecksum_eq_of_split dir l p0 p1 hsplit v hhex
        refine ⟨_, v, rfl, hhex, ?_, ?_⟩
        · rw [heq]
          unfold parsedRecord
          rw [heq]
        · unfold parsedRecord
          rw [heq]

/-- Claim C1: for a manifest whose non-comment, non-blank lines are all
well formed, parseChecksums succeeds and returns one record per effective
line, in file order (the result is exactly the map of parsedRecord over
the effective lines), so there are exactly N records for N effective
lines, and each record's CRC32 field is the value of its line's checksum
token parsed as hexadecimal. -/
theorem parseChecksums_wellFormed_spec (dir : String) (lines : List String)
    (hwf : ∀ l ∈ lines, effectiveLine l = true → wellFormedLine l = true) :
    parseChecksums dir lines =
      Except.ok ((lines.filter effectiveLine).map (parsedRecord dir)) ∧
    ((lines.filter effectiveLine).map (parsedRecord dir)).length =
      (lines.filter effectiveLine).length ∧
    ∀ l ∈ lines, effectiveLine l = true →
      ∃ tok v, lineChecksumToken l = some tok ∧
        parseHexUint32 tok = some v ∧ (parsedRecord dir l).CRC32 = v := by
  refine ⟨?_, List.length_map _ _, ?_⟩
  · induction lines with
    | nil => rfl
    | cons l rest ih =>
      have hrest : ∀ l' ∈ rest, effectiveLine l' = true →
          wellFormedLine l' = true := fun l' hl' => hwf l' (by simp [hl'])
      cases heff : effectiveLine l with
      | false =>
        unfold parseChecksums
        rw [heff]
        simp only [Bool.false_eq_true, if_false, List.filter_cons,
          heff]
        exact ih hrest
      | true =>
        have hw := hwf l (by simp) heff
        obtain ⟨tok, v, _, _, hok, _⟩ := parseChecksum_of_wellFormed dir l hw
        unfold parseChecksums
        rw [heff]
        simp only [if_true, hok, List.filter_cons, heff, List.map_cons]
        rw [ih hrest]
  · intro l _ heff
    have hw := hwf l (by assumption) heff
    obtain ⟨tok, v, htok, hhex, _, hcrc⟩ := parseChecksum_of_wellFormed dir l hw
    exact ⟨tok, v, htok, hhex, hcrc⟩

/-- A concrete manifest whose effective lines are well formed. -/
def manifestC1 : List String :=
  ["; comment line", "a.txt DEADBEEF", "   ", "b c", "sub.bin  cafe  "]

theorem parseChecksums_wellFormed_spec_witness :
    (∀ l ∈ manifestC1, effectiveLine l = true → wellFormedLine l = true) ∧
    (parseChecksums "." manifestC1 =
      Except.ok ((manifestC1.filter effectiveLine).map (parsedRecord ".")) ∧
    ((manifestC1.filter effectiveLine).map (parsedRecord ".")).length =
      (manifestC1.filter effectiveLine).length ∧
    ∀ l ∈ manifestC1, effectiveLine l = true →
      ∃ tok v, lineChecksumToken l = some tok ∧
        parseHexUint32 tok = some v ∧ (parsedRecord "." l).CRC32 = v) :=
  ⟨by decide, parseChecksums_wellFormed_spec "." manifestC1 (by decide)⟩

/-- A line whose checksum token exists (the line has a first space) but
does not parse as 32-bit hexadecimal. -/
def badTokenLine (l : String) : Bool :=
  match lineChecksumToken l with
  | none => false
  | some tok => (parseHexUint32 tok).isNone

/-- A line that splits into two fields at its first space. -/
def lineSplits (l : String) : Bool :=
  (splitFirstSpace (trimSpace l).data).isSome

theorem parseChecksum_badToken (dir l : String)
    (hb : badTokenLine l = true) :
    ∃ tok, lineChecksumToken l = some tok ∧ parseHexUint32 tok = none ∧
      parseChecksum dir (trimSpace l) =
        Except.error (Err.invalidChecksum tok) := by
  unfold badTokenLine at hb
  cases htok : lineChecksumToken l with
  | none => rw [htok] at hb; exact absurd hb (by simp)
  | some tok =>
    rw [htok] at hb
    have hb' : (parseHexUint32 tok).isNone = true := hb
    cases hhex : parseHexUint32 tok with
    | some v => rw [hhex] at hb'; exact absurd hb' (by simp)
    | none =>
      refine ⟨tok, rfl, hhex, ?_⟩
      unfold lineChecksumToken at htok
      cases hsplit : splitFirstSpace (trimSpace l).data with
      | none => rw [hsplit] at htok; exact absurd htok (by simp)
      | some p =>
        rw [hsplit] at htok
        obtain ⟨p0, p1⟩ := p
        simp only [Option.some.injEq] at htok
        subst htok
        unfold parseChecksum
        rw [hsplit]
        simp [hhex]

theorem parseChecksum_error_of_splits (dir l : String) (e : Err)
    (hs : lineSplits l = true)
    (he : parseChecksum dir (trimSpace l) = Except.error e) :
    ∃ tok, e = Err.invalidChecksum tok ∧ parseHexUint32 tok = none := by
  unfold lineSplits at hs
  cases hsplit : splitFirstSpace (trimSpace l).data with
  | none => rw [hsplit] at hs; exact absurd hs (by simp)
  | some p =>
    obtain ⟨p0, p1⟩ := p
    unfold parseChecksum at he
    rw [hsplit] at he
    cases hhex : parseHexUint32 (trimSpace (String.mk p1)) with
    | some v => simp [hhex] at he
    | none =>
      simp only [hhex, Except.error.injEq] at he
      exact ⟨trimSpace (String.mk p1), he.symm, hhex⟩

/-- Claim C2 counterexample: this manifest has an effective line with an
invalid checksum token ("file ZZZZ"), yet parsing fails with the
malformed-line error of the earlier space-less line, not with an
invalid-checksum error. -/
theorem parseChecksums_invalidToken_cex :
    (∃ l ∈ ["nospace", "file ZZZZ"],
      effectiveLine l = true ∧ badTokenLine l = true) ∧
    parseChecksums "." ["nospace", "file ZZZZ"] =
      Except.error (Err.malformedLine "nospace") ∧
    ∀ tok, parseChecksums "." ["nospace", "file ZZZZ"] ≠
      Except.error (Err.invalidChecksum tok) := by
  refine ⟨by decide, rfl, ?_⟩
  intro tok h
  rw [show parseChecksums "." ["nospace", "file ZZZZ"] =
    Except.error (Err.malformedLine "nospace") from rfl] at h
  simp at h

/-- Claim C2 (amended): a manifest with an effective line whose checksum
token is invalid or exceeds 32 bits fails as a whole (no partial record
list: the parse returns an error, the error of its first failing line);
the error is an invalid-checksum error provided every effective line
splits into two fields, otherwise an earlier malformed line's error can be
the one returned. -/
theorem parseChecksums_badToken_amended (dir : String)
    (lines : List String) :
    ((∃ l ∈ lines, effectiveLine l = true ∧ badTokenLine l = true) →
      ∃ e, parseChecksums dir lines = Except.error e) ∧
    ((∀ l ∈ lines, effectiveLine l = true → lineSplits l = true) →
      (∃ l ∈ lines, effectiveLine l = true ∧ badTokenLine l = true) →
      ∃ tok, parseChecksums dir lines =
        Except.error (Err.invalidChecksum tok) ∧
        parseHexUint32 tok = none) := by
  constructor
  · induction lines with
    | nil => rintro ⟨l, h, -⟩; exact absurd h (List.not_mem_nil l)
    | cons l rest ih =>
      rintro ⟨l', hl', heff', hbad'⟩
      cases heff : effectiveLine l with
      | false =>
        simp only [parseChecksums, heff, Bool.false_eq_true, if_false]
        refine ih ⟨l', ?_, heff', hbad'⟩
        rcases List.mem_cons.mp hl' with rfl | h
        · rw [heff] at heff'; exact absurd heff' (by simp)
        · exact h
      | true =>
        cases hp : parseChecksum dir (trimSpace l) with
        | error e =>
          exact ⟨e, by simp only [parseChecksums, heff, if_true, hp]⟩
        | ok c =>
          have hrest : l' ∈ rest := by
            rcases List.mem_cons.mp hl' with rfl | h
            · obtain ⟨tok, -, -, herr⟩ := parseChecksum_badToken dir l' hbad'
              rw [hp] at herr
              exact absurd herr (by simp)
            · exact h
          obtain ⟨e, he⟩ := ih ⟨l', hrest, heff', hbad'⟩
          exact ⟨e, by simp only [parseChecksums, heff, if_true, hp, he]⟩
  · intro hsplits
    induction lines with
    | nil => rintro ⟨l, h, -⟩; exact absurd h (List.not_mem_nil l)
    | cons l rest ih =>
      rintro ⟨l', hl', heff', hbad'⟩
      have hsrest : ∀ l'' ∈ rest, effectiveLine l'' = true →
          lineSplits l'' = true :=
        fun l'' h'' => hsplits l'' (by simp [h''])
      cases heff : effectiveLine l with
      | false =>
        simp only [parseChecksums, heff, Bool.false_eq_true, if_false]
        refine ih hsrest ⟨l', ?_, heff', hbad'⟩
        rcases List.mem_cons.mp hl' with rfl | h
        · rw [heff] at heff'; exact absurd heff' (by simp)
        · exact h
      | true =>
        cases hp : parseChecksum dir (trimSpace l) with
        | error e =>
          obtain ⟨tok, rfl, hhex⟩ := parseChecksum_error_of_splits dir l e
            (hsplits l (by simp) heff) hp
          exact ⟨tok, by simp only [parseChecksums, heff, if_true, hp], hhex⟩
        | ok c =>
          have hrest : l' ∈ rest := by
            rcases List.mem_cons.mp hl' with rfl | h
            · obtain ⟨tok, -, -, herr⟩ := parseChecksum_badToken dir l' hbad'
              rw [hp] at herr
              exact absurd herr (by simp)
            · exact h
          obtain ⟨tok, he, hhex⟩ := ih hsrest ⟨l', hrest, heff', hbad'⟩
          exact ⟨tok,
            by simp only [parseChecksums, heff, if_true, hp, he], hhex⟩

theorem parseChecksums_badToken_amended_witness :
    ∃ tok, parseChecksums "." ["a.txt cafe", "file ZZZZ"] =
      Except.error (Err.invalidChecksum tok) ∧
      parseHexUint32 tok = none :=
  (parseChecksums_badToken_amended "." ["a.txt cafe", "file ZZZZ"]).2
    (by decide) (by decide)

theorem splitFirstSpace_append (pre post : List Char) (hpre : ' ' ∉ pre) :
    splitFirstSpace (pre ++ ' ' :: post) = some (pre, post) := by
  induction pre with
  | nil => simp [splitFirstSpace]
  | cons c cs ih =>
    have hc : ¬(c = ' ') := fun h => hpre (h ▸ List.mem_cons_self c cs)
    have hcs : ' ' ∉ cs := fun h => hpre (List.mem_cons_of_mem c h)
    simp [splitFirstSpace, hc, ih hcs]

/-- Claim C3 counterexample: a line whose intended filename "my file.txt"
contains a space does not parse to that filename; the first field is "my"
and the remainder "file.txt DEADBEEF" is rejected as a checksum token, so
the whole line fails instead of succeeding. -/
theorem parseChecksum_spaceFilename_cex :
    parseChecksum "/d" "my file.txt DEADBEEF" =
      Except.error (Err.invalidChecksum "file.txt DEADBEEF") ∧
    ∀ c : Checksum,
      parseChecksum "/d" "my file.txt DEADBEEF" ≠ Except.ok c := by
  refine ⟨rfl, ?_⟩
  intro c h
  rw [show parseChecksum "/d" "my file.txt DEADBEEF" =
    Except.error (Err.invalidChecksum "file.txt DEADBEEF") from rfl] at h
  simp at h

/-- Claim C3 (amended): the first space of the line is the only field
delimiter, but the field before it is the filename and everything after it
is the checksum token: the line parses to a record whose filename is the
(space-free) text before the first space when the remainder is valid
32-bit hex, and fails with an invalid-checksum error otherwise — so a
filename with embedded spaces is never returned. -/
theorem parseChecksum_firstSpace_amended (dir : String)
    (pre post : List Char) (hpre : ' ' ∉ pre) :
    parseChecksum dir (String.mk (pre ++ ' ' :: post)) =
      match parseHexUint32 (trimSpace (String.mk post)) with
      | some v => Except.ok ⟨trimSpace (String.mk pre),
          pathJoin dir (trimSpace (String.mk pre)), v⟩
      | none =>
        Except.error (Err.invalidChecksum (trimSpace (String.mk post))) := by
  unfold parseChecksum
  have hdata : (String.mk (pre ++ ' ' :: post)).data = pre ++ ' ' :: post :=
    rfl
  rw [hdata, splitFirstSpace_append pre post hpre]
  cases hhex : parseHexUint32 (trimSpace (String.mk post)) with
  | none => simp [hhex]
  | some v => simp [hhex]

theorem parseChecksum_firstSpace_amended_witness :
    (' ' ∉ ['a', '.', 't', 'x', 't']) ∧
    parseChecksum "d" (String.mk
        (['a', '.', 't', 'x', 't'] ++ ' ' :: ['c', 'a', 'f', 'e'])) =
      match parseHexUint32 (trimSpace (String.mk ['c', 'a', 'f', 'e'])) with
      | some v => Except.ok ⟨trimSpace (String.mk ['a', '.', 't', 'x', 't']),
          pathJoin "d" (trimSpace (String.mk ['a', '.', 't', 'x', 't'])), v⟩
      | none => Except.error
          (Err.invalidChecksum (trimSpace (String.mk ['c', 'a', 'f', 'e']))) :=
  ⟨by decide,
    parseChecksum_firstSpace_amended "d" ['a', '.', 't', 'x', 't']
      ['c', 'a', 'f', 'e'] (by decide)⟩

/-- Claim C4 counterexample: an absolute filename is not kept as-is:
path.Join prefixes it with the manifest directory ("/abs.txt" under "/d"
resolves to "/d/abs.txt", not "/abs.txt"). -/
theorem parseChecksum_absolute_cex :
    parseChecksum "/d" "/abs.txt DEADBEEF" =
      Except.ok ⟨"/abs.txt", "/d/abs.txt", 0xDEADBEEF⟩ ∧
    ("/d/abs.txt" : String) ≠ "/abs.txt" :=
  ⟨rfl, by decide⟩

/-- Claim C4 (amended): every parsed record's path is path.Join of the
manifest directory and the filename — with Go's Join semantics, which
cleans the concatenation and prefixes the directory even when the
filename is absolute. -/
theorem parseChecksum_path_amended (dir line : String) (c : Checksum)
    (h : parseChecksum dir line = Except.ok c) :
    c.Path = pathJoin dir c.Filename := by
  unfold parseChecksum at h
  cases hsplit : splitFirstSpace line.data with
  | none => rw [hsplit] at h; simp at h
  | some p =>
    obtain ⟨p0, p1⟩ := p
    rw [hsplit] at h
    cases hhex : parseHexUint32 (trimSpace (String.mk p1)) with
    | none => simp [hhex] at h
    | some v =>
      simp only [hhex, Except.ok.injEq] at h
      subst h
      rfl

theorem parseChecksum_path_amended_witness :
    (⟨"b.txt", "a/b.txt", 0xcafe⟩ : Checksum).Path =
      pathJoin "a" (⟨"b.txt", "a/b.txt", 0xcafe⟩ : Checksum).Filename :=
  parseChecksum_path_amended "a" "b.txt cafe"
    ⟨"b.txt", "a/b.txt", 0xcafe⟩ rfl

theorem parseChecksums_all_skip (dir : String) (lines : List String)
    (h : ∀ l ∈ lines, effectiveLine l = false) :
    parseChecksums dir lines = Except.ok [] := by
  induction lines with
  | nil => rfl
  | cons l rest ih =>
    have hl : effectiveLine l = false := h l (by simp)
    simp only [parseChecksums, hl, Bool.false_eq_true, if_false]
    exact ih fun l' h' => h l' (by simp [h'])

/-- A manifest file holding only a comment and a blank line. -/
def fsCommentOnly : String → Option (List String) :=
  fun p => if p = "m.sfv" then some ["; only a comment", "   "] else none

/-- Claim C5 counterexample: Read succeeds on a comment-only manifest and
returns an SFV with an empty checksum sequence — it does not raise the
"no checksums found" condition itself. -/
theorem read_emptySuccess_cex :
    Read fsCommentOnly "m.sfv" = Except.ok ⟨[], "m.sfv"⟩ ∧
    (⟨[], "m.sfv"⟩ : SFV).Checksums = [] :=
  ⟨rfl, rfl⟩

/-- Claim C5 (amended): on a manifest whose content has no usable record
line, Read succeeds with an empty checksum sequence; the explicit
"no checksums found" error is raised later, by SFV.Verify on that empty
SFV, not by Read. -/
theorem read_emptyManifest_amended (fs : String → Option (List String))
    (p : String) (lines : List String) (hfs : fs p = some lines)
    (hempty : ∀ l ∈ lines, effectiveLine l = false) :
    ∃ s, Read fs p = Except.ok s ∧ s.Checksums = [] ∧ s.Path = p ∧
      ∀ vfs poly bufSize, SFV.Verify vfs poly bufSize s =
        (false, some (Err.noChecksums p)) := by
  refine ⟨⟨[], p⟩, ?_, rfl, rfl, fun vfs poly bufSize => rfl⟩
  unfold Read
  rw [hfs]
  simp only [parseChecksums_all_skip (pathDir p) lines hempty]

theorem read_emptyManifest_amended_witness :
    ∃ s, Read fsCommentOnly "m.sfv" = Except.ok s ∧ s.Checksums = [] ∧
      s.Path = "m.sfv" ∧
      ∀ vfs poly bufSize, SFV.Verify vfs poly bufSize s =
        (false, some (Err.noChecksums "m.sfv")) :=
  read_emptyManifest_amended fsCommentOnly "m.sfv"
    ["; only a comment", "   "] rfl (by decide)

theorem verifyAll_skip (fs : String → FileState) (poly bufSize : Nat)
    (pre rest : List Checksum)
    (hpre : ∀ c' ∈ pre, (Checksum.Verify fs poly bufSize c').1 = true ∧
      (Checksum.Verify fs poly bufSize c').2.2 = none) :
    verifyAll fs poly bufSize (pre ++ rest) =
      verifyAll fs poly bufSize rest := by
  induction pre with
  | nil => rfl
  | cons c cs ih =>
    obtain ⟨h1, h2⟩ := hpre c (by simp)
    simp only [List.cons_append, verifyAll, h2, h1, if_true]
    exact ih fun c' h' => hpre c' (by simp [h'])

theorem verifyAll_true_iff (fs : String → FileState) (poly bufSize : Nat)
    (l : List Checksum) :
    verifyAll fs poly bufSize l = (true, none) ↔
      ∀ c ∈ l, (Checksum.Verify fs poly bufSize c).1 = true ∧
        (Checksum.Verify fs poly bufSize c).2.2 = none := by
  induction l with
  | nil => simp [verifyAll]
  | cons c cs ih =>
    constructor
    · intro h
      cases h22 : (Checksum.Verify fs poly bufSize c).2.2 with
      | some e => simp [verifyAll, h22] at h
      | none =>
        cases h1 : (Checksum.Verify fs poly bufSize c).1 with
        | false => simp [verifyAll, h22, h1] at h
        | true =>
          simp only [verifyAll, h22, h1, if_true] at h
          intro c' hc'
          rcases List.mem_cons.mp hc' with rfl | h'
          · exact ⟨h1, h22⟩
          · exact ih.mp h c' h'
    · intro h
      obtain ⟨h1, h22⟩ := h c (by simp)
      simp only [verifyAll, h22, h1, if_true]
      exact ih.mpr fun c' h' => h c' (by simp [h'])

/-- Claim C6: SFV.Verify errors with the distinguishable no-checksums
error on an empty record list; it checks records sequentially and
short-circuits, returning (false, err) at the first record whose
verification errors and (false, nil) at the first mismatch, whatever
comes after; and it returns (true, nil) exactly when the list is
non-empty and every record verifies with a match and no error. -/
theorem sfv_verify_spec (fs : String → FileState) (poly bufSize : Nat)
    (s : SFV) :
    (s.Checksums = [] →
      SFV.Verify fs poly bufSize s =
        (false, some (Err.noChecksums s.Path))) ∧
    (∀ pre c post, s.Checksums = pre ++ c :: post →
      (∀ c' ∈ pre, (Checksum.Verify fs poly bufSize c').1 = true ∧
        (Checksum.Verify fs poly bufSize c').2.2 = none) →
      (∀ e, (Checksum.Verify fs poly bufSize c).2.2 = some e →
        SFV.Verify fs poly bufSize s = (false, some e)) ∧
      ((Checksum.Verify fs poly bufSize c).2.2 = none →
        (Checksum.Verify fs poly bufSize c).1 = false →
        SFV.Verify fs poly bufSize s = (false, none))) ∧
    (SFV.Verify fs poly bufSize s = (true, none) ↔
      s.Checksums ≠ [] ∧ ∀ c ∈ s.Checksums,
        (Checksum.Verify fs poly bufSize c).1 = true ∧
        (Checksum.Verify fs poly bufSize c).2.2 = none) := by
  refine ⟨?_, ?_, ?_⟩
  · intro h
    simp [SFV.Verify, h, List.isEmpty]
  · intro pre c post hs hpre
    have hne : s.Checksums.isEmpty = false := by
      rw [hs]; cases pre <;> rfl
    constructor
    · intro e he
      unfold SFV.Verify
      rw [hne, hs, verifyAll_skip fs poly bufSize pre (c :: post) hpre]
      simp only [verifyAll, he]
      rfl
    · intro h22 h1
      unfold SFV.Verify
      rw [hne, hs, verifyAll_skip fs poly bufSize pre (c :: post) hpre]
      simp only [verifyAll, h22, h1]
      rfl
  · cases hs : s.Checksums with
    | nil =>
      constructor
      · intro h
        rw [show SFV.Verify fs poly bufSize s =
          (false, some (Err.noChecksums s.Path)) from by
            simp [SFV.Verify, hs, List.isEmpty]] at h
        simp at h
      · rintro ⟨hne, -⟩
        exact absurd rfl hne
    | cons c cs =>
      have hne : s.Checksums.isEmpty = false := by rw [hs]; rfl
      unfold SFV.Verify
      rw [hne, hs]
      simp only [Bool.false_eq_true, if_false]
      rw [verifyAll_true_iff fs poly bufSize (c :: cs)]
      simp

/-- One record over a file system where every file streams as the single
byte 0 (CRC32 of that byte under polynomial 0 is 0xFF000000, which the
record expects). -/
def fsC6 : String → FileState :=
  fun _ => FileState.content [0]

theorem sfv_verify_spec_witness :
    SFV.Verify fsC6 0 4096 ⟨[⟨"f", "f", 0xFF000000⟩], "m.sfv"⟩ =
      (true, none) :=
  (sfv_verify_spec fsC6 0 4096
      ⟨[⟨"f", "f", 0xFF000000⟩], "m.sfv"⟩).2.2.mpr
    ⟨by decide, by decide⟩

theorem comp32_comp32 (x : Nat) : comp32 (comp32 x) = x := by
  unfold comp32
  rw [Nat.xor_assoc, Nat.xor_self, Nat.xor_zero]

theorem crc32update_nil (poly c : Nat) : crc32update poly c [] = c := by
  unfold crc32update
  exact comp32_comp32 c

theorem crc32update_append (poly c : Nat) (l1 l2 : List Nat) :
    crc32update poly (crc32update poly c l1) l2 =
      crc32update poly c (l1 ++ l2) := by
  unfold crc32update
  rw [comp32_comp32, List.foldl_append]

theorem readLoop_eq_crc32update (poly bufSize : Nat) (hbuf : 0 < bufSize) :
    ∀ fuel (bytes : List Nat) (crc : Nat), bytes.length ≤ fuel →
      readLoop poly bufSize fuel crc bytes = crc32update poly crc bytes := by
  intro fuel
  induction fuel with
  | zero =>
    intro bytes crc hlen
    have hb : bytes = [] := List.eq_nil_of_length_eq_zero (Nat.le_zero.mp hlen)
    subst hb
    rw [crc32update_nil]
    rfl
  | succ n ih =>
    intro bytes crc hlen
    cases bytes with
    | nil => rw [crc32update_nil]; rfl
    | cons b bs =>
      have hbufne : ¬(bufSize = 0) := Nat.pos_iff_ne_zero.mp hbuf
      have hdrop : ((b :: bs).drop bufSize).length ≤ n := by
        rw [List.length_drop]
        simp only [List.length_cons] at hlen ⊢
        omega
      show (if bufSize = 0 then crc
        else readLoop poly bufSize n
          (crc32update poly crc ((b :: bs).take bufSize))
          ((b :: bs).drop bufSize)) = _
      rw [if_neg hbufne, ih _ _ hdrop, crc32update_append,
        List.take_append_drop]

/-- Claim C7: with a positive buffer size, Checksum.Verify on a readable
file computes the CRC32 of the whole byte sequence (the buffered chunked
accumulation equals the one-shot CRC32), returns it, and reports a match
exactly when it equals the record's expected value; a failure to open the
file, or a read error other than end-of-stream, yields matched = false,
computed = 0 and an I/O error. -/
theorem checksum_verify_spec (fs : String → FileState) (poly bufSize : Nat)
    (c : Checksum) (hbuf : 0 < bufSize) :
    (∀ bytes, fs c.Path = FileState.content bytes →
      Checksum.Verify fs poly bufSize c =
        ((crc32Go poly bytes == c.CRC32), crc32Go poly bytes, none) ∧
      ((crc32Go poly bytes == c.CRC32) = true ↔
        crc32Go poly bytes = c.CRC32)) ∧
    (fs c.Path = FileState.absent →
      Checksum.Verify fs poly bufSize c = (false, 0, some Err.openError)) ∧
    (∀ pfx, fs c.Path = FileState.readFailure pfx →
      Checksum.Verify fs poly bufSize c = (false, 0, some Err.ioError)) := by
  refine ⟨?_, ?_, ?_⟩
  · intro bytes hfs
    refine ⟨?_, beq_iff_eq⟩
    unfold Checksum.Verify
    rw [hfs]
    have hloop := readLoop_eq_crc32update poly bufSize hbuf bytes.length
      bytes 0 (Nat.le_refl _)
    simp only [hloop]
    rfl
  · intro hfs
    unfold Checksum.Verify
    rw [hfs]
  · intro pfx hfs
    unfold Checksum.Verify
    rw [hfs]

/-- A file system where every file streams as the ASCII bytes of
"123456789". -/
def fsC7 : String → FileState :=
  fun _ => FileState.content [49, 50, 51, 52, 53, 54, 55, 56, 57]

theorem checksum_verify_spec_witness :
    (0 < 4) ∧
    (Checksum.Verify fsC7 0xEDB88320 4 ⟨"f", "f", 0xCBF43926⟩ =
      ((crc32Go 0xEDB88320 [49, 50, 51, 52, 53, 54, 55, 56, 57] ==
          (0xCBF43926 : Nat)),
        crc32Go 0xEDB88320 [49, 50, 51, 52, 53, 54, 55, 56, 57], none) ∧
    ((crc32Go 0xEDB88320 [49, 50, 51, 52, 53, 54, 55, 56, 57] ==
        (0xCBF43926 : Nat)) = true ↔
      crc32Go 0xEDB88320 [49, 50, 51, 52, 53, 54, 55, 56, 57] =
        0xCBF43926)) :=
  ⟨by decide,
    (checksum_verify_spec fsC7 0xEDB88320 4 ⟨"f", "f", 0xCBF43926⟩
        (by decide)).1 [49, 50, 51, 52, 53, 54, 55, 56, 57] rfl⟩

theorem workerSend_none_iff (fs : String → FileState) (poly bufSize : Nat)
    (c : Checksum) :
    workerSend fs poly bufSize c = none ↔
      (Checksum.Verify fs poly bufSize c).1 = true ∧
      (Checksum.Verify fs poly bufSize c).2.2 = none := by
  unfold workerSend
  cases h22 : (Checksum.Verify fs poly bufSize c).2.2 with
  | some e => simp [h22]
  | none =>
    cases h1 : (Checksum.Verify fs poly bufSize c).1 with
    | false => simp [h22, h1]
    | true => simp [h22, h1]

theorem exitLoop_aux (l : List (Option Err)) :
    ∀ code : Nat,
      (l.foldl (fun code e => if e.isSome then 1 else code) code = 0 ↔
        code = 0 ∧ ∀ e ∈ l, e = none) ∧
      (code = 0 ∨ code = 1 →
        l.foldl (fun code e => if e.isSome then 1 else code) code = 0 ∨
        l.foldl (fun code e => if e.isSome then 1 else code) code = 1) := by
  induction l with
  | nil => intro code; simp
  | cons e l ih =>
    intro code
    constructor
    · rw [List.foldl_cons, ((ih _).1)]
      cases e with
      | none => simp
      | some err => simp
    · intro hcode
      rw [List.foldl_cons]
      refine (ih _).2 ?_
      cases e with
      | none => simpa using hcode
      | some err => simp

/-- Claim C8: the process exit status is 0 exactly when the manifest was
read successfully and every record's outcome is a match without error (so
each worker sent a nil error); any mismatch or I/O failure among the
records, or a failure to load/parse the manifest, forces status 1, the
status is always 0 or 1, and the status only depends on the multiset of
per-record results (it is invariant under permutation of the drained
error stream). -/
theorem main_exit_spec (fs : String → FileState) (poly bufSize : Nat)
    (readResult : Except Err SFV) (records : List Checksum) :
    (mainExit readResult (records.map (workerSend fs poly bufSize)) = 0 ↔
      (∃ s, readResult = Except.ok s) ∧
      ∀ c ∈ records, (Checksum.Verify fs poly bufSize c).1 = true ∧
        (Checksum.Verify fs poly bufSize c).2.2 = none) ∧
    (∀ errList : List (Option Err),
      mainExit readResult errList = 0 ∨ mainExit readResult errList = 1) ∧
    (∀ errList errList' : List (Option Err), errList.Perm errList' →
      mainExit readResult errList = mainExit readResult errList') := by
  refine ⟨?_, ?_, ?_⟩
  · cases readResult with
    | error e =>
      constructor
      · intro h; exact absurd h (by simp [mainExit])
      · rintro ⟨⟨s, hs⟩, -⟩; exact absurd hs (by simp)
    | ok s =>
      show exitLoop _ = 0 ↔ _
      unfold exitLoop
      rw [(exitLoop_aux _ 0).1]
      constructor
      · rintro ⟨-, h⟩
        refine ⟨⟨s, rfl⟩, fun c hc => ?_⟩
        exact (workerSend_none_iff fs poly bufSize c).mp
          (h _ (List.mem_map_of_mem _ hc))
      · rintro ⟨-, h⟩
        refine ⟨rfl, fun e he => ?_⟩
        obtain ⟨c, hc, rfl⟩ := List.mem_map.mp he
        exact (workerSend_none_iff fs poly bufSize c).mpr (h c hc)
  · intro errList
    cases readResult with
    | error e => right; rfl
    | ok s => exact (exitLoop_aux errList 0).2 (Or.inl rfl)
  · intro errList errList' hperm
    cases readResult with
    | error e => rfl
    | ok s =>
      show exitLoop errList = exitLoop errList'
      have key : ∀ lst : List (Option Err),
          exitLoop lst = 0 ↔ ∀ e ∈ lst, e = none := by
        intro lst
        unfold exitLoop
        rw [(exitLoop_aux lst 0).1]
        simp
      have htwo : ∀ lst : List (Option Err),
          exitLoop lst = 0 ∨ exitLoop lst = 1 :=
        fun lst => (exitLoop_aux lst 0).2 (Or.inl rfl)
      rcases htwo errList with h | h <;>
        rcases htwo errList' with h' | h' <;> rw [h, h']
      · exfalso
        have hz : exitLoop errList' = 0 := (key errList').mpr
          fun e he => ((key errList).mp h) e (hperm.mem_iff.mpr he)
        rw [hz] at h'
        exact absurd h' (by decide)
      · exfalso
        have hz : exitLoop errList = 0 := (key errList).mpr
          fun e he => ((key errList').mp h') e (hperm.mem_iff.mp he)
        rw [hz] at h
        exact absurd h (by decide)

/-- A record whose expected value differs from the CRC32 its file streams
to (byte 0 under polynomial 0 has CRC32 0xFF000000, the record expects
1). -/
def mismatchRecord : Checksum :=
  ⟨"bad", "bad", 1⟩

theorem main_exit_spec_witness :
    mainExit (Except.ok ⟨[mismatchRecord], "m.sfv"⟩)
        ([mismatchRecord].map (workerSend fsC6 0 4096)) = 0 ↔
      (∃ s, (Except.ok ⟨[mismatchRecord], "m.sfv"⟩ : Except Err SFV) =
        Except.ok s) ∧
      ∀ c ∈ [mismatchRecord], (Checksum.Verify fsC6 0 4096 c).1 = true ∧
        (Checksum.Verify fsC6 0 4096 c).2.2 = none :=
  (main_exit_spec fsC6 0 4096 (Except.ok ⟨[mismatchRecord], "m.sfv"⟩)
    [mismatchRecord]).1

theorem allExist_true_iff (stat : String → StatResult)
    (l : List Checksum) :
    allExist stat l = true ↔
      ∀ c ∈ l, stat c.Path = StatResult.ok := by
  induction l with
  | nil => simp [allExist]
  | cons c cs ih =>
    cases h : Checksum.IsExist stat c with
    | false =>
      simp only [allExist, h, Bool.false_eq_true, if_false]
      constructor
      · intro hfalse; exact absurd hfalse (by simp)
      · intro hall
        have := hall c (by simp)
        unfold Checksum.IsExist at h
        rw [this] at h
        exact absurd h (by simp)
    | true =>
      simp only [allExist, h, if_true]
      rw [ih]
      unfold Checksum.IsExist at h
      constructor
      · intro hall c' hc'
        rcases List.mem_cons.mp hc' with rfl | h'
        · exact beq_iff_eq.mp h
        · exact hall c' h'
      · intro hall c' hc'
        exact hall c' (by simp [hc'])

/-- Claim C10: Checksum.IsExist is false exactly when stat-ing the path
fails, whatever the failure (missing file and permission error are not
told apart); SFV.IsExist is true exactly when every record's stat
succeeds, so it is vacuously true on an SFV with zero records, while
SFV.Verify on the same empty SFV returns the no-checksums error. -/
theorem isexist_spec (stat : String → StatResult) (s : SFV)
    (c : Checksum) :
    (Checksum.IsExist stat c = false ↔ stat c.Path ≠ StatResult.ok) ∧
    (SFV.IsExist stat s = true ↔
      ∀ c' ∈ s.Checksums, stat c'.Path = StatResult.ok) ∧
    (s.Checksums = [] → SFV.IsExist stat s = true) ∧
    (s.Checksums = [] → ∀ fs poly bufSize,
      SFV.Verify fs poly bufSize s =
        (false, some (Err.noChecksums s.Path))) := by
  refine ⟨?_, allExist_true_iff stat s.Checksums, ?_, ?_⟩
  · unfold Checksum.IsExist
    cases h : stat c.Path <;> simp [h]
  · intro h
    unfold SFV.IsExist
    rw [h]
    rfl
  · intro h fs poly bufSize
    simp [SFV.Verify, h, List.isEmpty]

theorem isexist_spec_witness :
    (SFV.IsExist (fun _ => StatResult.errPermission) ⟨[], "m.sfv"⟩ =
      true) ∧
    (Checksum.IsExist (fun _ => StatResult.errPermission)
        ⟨"f", "f", 0⟩ = false ↔
      (fun _ => StatResult.errPermission) (Checksum.Path ⟨"f", "f", 0⟩) ≠
        StatResult.ok) :=
  ⟨((isexist_spec (fun _ => StatResult.errPermission) ⟨[], "m.sfv"⟩
      ⟨"f", "f", 0⟩).2.2.1) rfl,
    (isexist_spec (fun _ => StatResult.errPermission) ⟨[], "m.sfv"⟩
      ⟨"f", "f", 0⟩).1⟩

/-- The records a pipeline state still owes, holds, or has settled:
queued, in flight, and already in the results. -/
def pipeRecords (s : PipeState) : List Checksum :=
  s.queue ++ s.inFlight.map Prod.snd ++ s.results.map Prod.fst

theorem pipeStep_perm {fs : String → FileState} {poly bufSize W : Nat}
    {s t : PipeState} (h : PipeStep fs poly bufSize W s t) :
    (pipeRecords t).Perm (pipeRecords s) := by
  cases h with
  | dequeue w c q inF res hw hfree =>
    simp only [pipeRecords, List.map_cons, List.append_assoc,
      List.cons_append]
    exact List.perm_middle
  | finish w c l r q res =>
    simp only [pipeRecords, List.map_append, List.map_cons,
      List.append_assoc, List.cons_append]
    exact List.Perm.append_left q
      (List.Perm.append_left (l.map Prod.snd) List.perm_middle)

theorem pipeReach_invariant {fs : String → FileState}
    {poly bufSize W : Nat} {s0 s : PipeState}
    (h : PipeReach fs poly bufSize W s0 s) :
    (pipeRecords s).Perm (pipeRecords s0) ∧
    ((∀ p ∈ s0.results, p.2 = Checksum.Verify fs poly bufSize p.1) →
      ∀ p ∈ s.results, p.2 = Checksum.Verify fs poly bufSize p.1) := by
  induction h with
  | refl => exact ⟨List.Perm.refl _, fun h => h⟩
  | tail hreach hstep ih =>
    refine ⟨(pipeStep_perm hstep).trans ih.1, fun h0 => ?_⟩
    have hmid := ih.2 h0
    cases hstep with
    | dequeue w c q inF res hw hfree => exact hmid
    | finish w c l r q res =>
      intro p hp
      rcases List.mem_cons.mp hp with rfl | hin
      · rfl
      · exact hmid p hin

theorem pipeRun_exists (fs : String → FileState) (poly bufSize W : Nat)
    (hW : 0 < W) :
    ∀ (records : List Checksum)
      (res : List (Checksum × (Bool × Nat × Option Err))),
      PipeReach fs poly bufSize W ⟨records, [], res⟩
        ⟨[], [], (records.map
            (fun c => (c, Checksum.Verify fs poly bufSize c))).reverse ++
          res⟩ := by
  intro records
  induction records with
  | nil =>
    intro res
    simp only [List.map_nil, List.reverse_nil, List.nil_append]
    exact Relation.ReflTransGen.refl
  | cons c rest ih =>
    intro res
    have s1 : PipeStep fs poly bufSize W ⟨c :: rest, [], res⟩
        ⟨rest, [(0, c)], res⟩ :=
      PipeStep.dequeue 0 c rest [] res hW
        (fun p hp => absurd hp (List.not_mem_nil p))
    have s2 : PipeStep fs poly bufSize W ⟨rest, [(0, c)], res⟩
        ⟨rest, [], (c, Checksum.Verify fs poly bufSize c) :: res⟩ :=
      PipeStep.finish 0 c [] [] rest res
    have tail := ih ((c, Checksum.Verify fs poly bufSize c) :: res)
    have hlist : (rest.map
          (fun c => (c, Checksum.Verify fs poly bufSize c))).reverse ++
        ((c, Checksum.Verify fs poly bufSize c) :: res) =
        ((c :: rest).map
          (fun c => (c, Checksum.Verify fs poly bufSize c))).reverse ++
        res := by
      simp [List.reverse_cons, List.append_assoc]
    rw [hlist] at tail
    exact Relation.ReflTransGen.head s1 (Relation.ReflTransGen.head s2 tail)

/-- Claim C9: for any worker count W, every completed execution of the
pipeline (work queue drained, no record in flight) has produced exactly
one outcome per input record: the results' records are a permutation of
the manifest's records (a bijection, order not necessarily preserved),
there are exactly N outcomes for N records, and each outcome is the
verification of its record; and whenever W ≥ 1 such a completed execution
exists. -/
theorem pipeline_spec (fs : String → FileState) (poly bufSize W : Nat)
    (records : List Checksum) :
    (∀ s, PipeReach fs poly bufSize W (pipeInit records) s → pipeDone s →
      s.results.length = records.length ∧
      (s.results.map Prod.fst).Perm records ∧
      ∀ p ∈ s.results, p.2 = Checksum.Verify fs poly bufSize p.1) ∧
    (0 < W → ∃ s, PipeReach fs poly bufSize W (pipeInit records) s ∧
      pipeDone s ∧ s.results.length = records.length ∧
      (s.results.map Prod.fst).Perm records ∧
      ∀ p ∈ s.results, p.2 = Checksum.Verify fs poly bufSize p.1) := by
  have parta : ∀ s, PipeReach fs poly bufSize W (pipeInit records) s →
      pipeDone s →
      s.results.length = records.length ∧
      (s.results.map Prod.fst).Perm records ∧
      ∀ p ∈ s.results, p.2 = Checksum.Verify fs poly bufSize p.1 := by
    intro s hreach hdone
    obtain ⟨hperm, hok⟩ := pipeReach_invariant hreach
    have hinit : pipeRecords (pipeInit records) = records := by
      simp [pipeRecords, pipeInit]
    have hfinal : pipeRecords s = s.results.map Prod.fst := by
      simp [pipeRecords, hdone.1, hdone.2]
    rw [hinit, hfinal] at hperm
    refine ⟨?_, hperm, hok (fun p hp => absurd hp (List.not_mem_nil p))⟩
    have := hperm.length_eq
    rwa [List.length_map] at this
  refine ⟨parta, fun hW => ?_⟩
  refine ⟨⟨[], [], (records.map
      (fun c => (c, Checksum.Verify fs poly bufSize c))).reverse ++ []⟩,
    pipeRun_exists fs poly bufSize W hW records [], ⟨rfl, rfl⟩,
    parta _ (pipeRun_exists fs poly bufSize W hW records []) ⟨rfl, rfl⟩⟩

theorem pipeline_spec_witness :
    ∃ s, PipeReach fsC7 0 1 2 (pipeInit [⟨"f", "f", 1⟩, ⟨"g", "g", 2⟩]) s ∧
      pipeDone s ∧
      s.results.length = [(⟨"f", "f", 1⟩ : Checksum), ⟨"g", "g", 2⟩].length ∧
      (s.results.map Prod.fst).Perm [⟨"f", "f", 1⟩, ⟨"g", "g", 2⟩] ∧
      ∀ p ∈ s.results, p.2 = Checksum.Verify fsC7 0 1 p.1 :=
  (pipeline_spec fsC7 0 1 2 [⟨"f", "f", 1⟩, ⟨"g", "g", 2⟩]).2 (by decide)

end VerifySfv
